import Mathlib

/-!
# Identity matching: the GitHub and GitLab matchers

A shallow embedding of `external/github.go` and `external/gitlab.go`.

* Go strings are lists of characters.  Every separator the code passes to the
  `strings` package is ASCII, so splitting on bytes and splitting on code
  points agree.
* The directory service is an oracle: the answer to a request may depend on
  the request and on the number of requests issued before it.
* The goroutine of `MatchByEmail` is a pair of loops driven by fuel (one unit
  per loop iteration); `none` means that the fuel ran out before the goroutine
  reached a `return`.  The requests issued are recorded in order.
* Logging (`logrus.Warnf`) and `time.Sleep` touch none of the variables of the
  goroutine and are left out.
* The `select` statement is resolved by an input.  On `ctx.Done()` nothing
  stops the goroutine, which shares the named results with the method: the
  same goroutine is then followed iteration by iteration (`step`), and the
  input says how many iterations land before and after the store of
  `return "", "", context.Canceled`.  `task_steps` relates the two views.
-/

namespace External

/-- A Go `string`. -/
abbrev GoString := List Char

/-! ## The `strings` package -/

/-- Go `strings.HasSuffix(s, suffix)`:
`len(s) >= len(suffix) && s[len(s)-len(suffix):] == suffix`. -/
def HasSuffix (s suffix : GoString) : Bool :=
  decide (suffix.length ≤ s.length) && (s.drop (s.length - suffix.length) == suffix)

/-- Go `strings.Index(s, substr)`: the position of the first occurrence of
`substr` in `s`; `none` stands for `-1`. -/
def Index (s substr : GoString) : Option Nat :=
  if substr.isPrefixOf s then some 0
  else
    match s with
    | [] => none
    | _ :: t => (Index t substr).map (· + 1)

/-- Go `strings.Contains(s, substr)`: `Index(s, substr) >= 0`. -/
def Contains (s substr : GoString) : Bool :=
  (Index s substr).isSome

/-- Go `strings.Count(s, substr)` for a non-empty `substr`: the number of
non-overlapping occurrences.  Every round removes at least one character, so
`fuel = len(s)` rounds are enough. -/
def countLoop (substr : GoString) : Nat → GoString → Nat
  | 0, _ => 0
  | fuel + 1, s =>
    match Index s substr with
    | none => 0
    | some i => countLoop substr fuel (s.drop (i + substr.length)) + 1

/-- Go `strings.Count(s, substr)` for a non-empty `substr`. -/
def Count (s substr : GoString) : Nat :=
  countLoop substr s.length s

/-- The loop of Go `genSplit(s, sep, 0, n)` for a non-empty `sep`, run for at
most `n - 1` rounds: cut at the first separator while one is found. -/
def genSplit (sep : GoString) : Nat → GoString → List GoString
  | 0, s => [s]
  | rounds + 1, s =>
    match Index s sep with
    | none => [s]
    | some m => s.take m :: genSplit sep rounds (s.drop (m + sep.length))

/-- Go `strings.Split(s, sep)` for a non-empty `sep`:
`genSplit(s, sep, 0, -1)`, where `n` becomes `Count(s, sep) + 1`. -/
def Split (s sep : GoString) : List GoString :=
  genSplit sep (Count s sep) s

/-- Go `strings.Replace(s, old, new, n)` for a non-empty `old` and `n ≥ 0`:
the first `n` non-overlapping occurrences of `old` are replaced by `new`. -/
def Replace (s old new : GoString) : Nat → GoString
  | 0 => s
  | n + 1 =>
    match Index s old with
    | none => s
    | some j => s.take j ++ new ++ Replace (s.drop (j + old.length)) old new n

/-! ## Errors -/

/-- A Go `error` value (the interface value `nil` is `none : Option GoError`). -/
inductive GoError where
  /-- The type `*github.RateLimitError`, with the time at which the quota resets. -/
  | RateLimitError (reset : Nat)
  /-- Modelled from the spec: the package variable `ErrNoMatches` is declared
  outside the files read here; it is the "no matches" error, an error value of
  its own. -/
  | ErrNoMatches
  /-- The value `context.Canceled`. -/
  | Canceled
  /-- The value `errors.New(text)`. -/
  | New (text : GoString)
  /-- Any other error value of a backend. -/
  | Other (code : Nat)
  deriving DecidableEq, Repr

/-- The type assertion `err.(*github.RateLimitError)` succeeds. -/
def GoError.isRateLimitError : GoError → Bool
  | .RateLimitError _ => true
  | _ => false

/-- Go `err.Error()` where the files read here fix the text: the text of
`errors.New(text)` is `text`; `none` where the text is fixed elsewhere. -/
def GoError.Error : GoError → Option GoString
  | .New text => some text
  | _ => none

/-! ## GitHub -/

/-- A `github.User`, as read through `GetLogin` and `GetName`. -/
structure User where
  Login : GoString
  Name : GoString
  deriving DecidableEq, Repr

/-- A request to the GitHub API. -/
inductive Call where
  /-- The request `client.Search.Users(ctx, query, searchOpts)`. -/
  | SearchUsers (query : GoString)
  /-- The request `client.Users.Get(ctx, user)`. -/
  | UsersGet (user : GoString)
  deriving DecidableEq, Repr

/-- The `*github.Client`: what each request returns, given the number of
requests issued before it. -/
structure Client where
  SearchUsers : Nat → GoString → Except GoError (List User)
  UsersGet : Nat → GoString → Except GoError User

/-- The matcher of emails and GitHub users. -/
structure GitHubMatcher where
  client : Client

/-- The named results of `MatchByEmail`. -/
structure Results where
  user : GoString
  name : GoString
  err : Option GoError
  deriving DecidableEq, Repr

/-- The state of the goroutine when it stops: the named results and the
requests issued, in order. -/
structure Outcome where
  res : Results
  calls : List Call
  deriving DecidableEq, Repr

/-- How a loop of the goroutine is left. -/
inductive Exit where
  /-- The statement `break`. -/
  | brk
  /-- The statement `return`. -/
  | ret
  deriving DecidableEq, Repr

/-- The function `isNoReplyEmail`. -/
def isNoReplyEmail (email : GoString) : Bool :=
  HasSuffix email "@users.noreply.github.com".toList

/-- The function `userFromEmail`. -/
def userFromEmail (email : GoString) : GoString :=
  let user := (Split email ['@']).getD 0 []
  if Contains user ['+'] then (Split user ['+']).getD 1 [] else user

/-- The first loop of the goroutine of `GitHubMatcher.MatchByEmail` (lines
51 to 78). -/
def GitHubMatcher.searchLoop (m : GitHubMatcher) (email : GoString) :
    Nat → GoString → Results → List Call → Option (Exit × Outcome)
  | 0, _, _, _ => none
  | fuel + 1, query, r, calls =>
    if isNoReplyEmail email then
      m.searchLoop email fuel query { r with user := userFromEmail email } calls
    else
      match m.client.SearchUsers calls.length query with
      | .error e =>
        if e.isRateLimitError then
          m.searchLoop email fuel query { r with err := some e }
            (calls ++ [Call.SearchUsers query])
        else
          some (Exit.ret, ⟨{ r with err := some e }, calls ++ [Call.SearchUsers query]⟩)
      | .ok users =>
        match users with
        | [] =>
          if Contains query ['@'] then
            m.searchLoop email fuel (Replace query ['@'] [' '] 1) { r with err := none }
              (calls ++ [Call.SearchUsers query])
          else
            some (Exit.ret,
              ⟨{ r with err := some GoError.ErrNoMatches }, calls ++ [Call.SearchUsers query]⟩)
        | u :: _ =>
          some (Exit.brk,
            ⟨{ r with user := u.Login, err := none }, calls ++ [Call.SearchUsers query]⟩)

/-- The second loop of the goroutine of `GitHubMatcher.MatchByEmail` (lines
80 to 94). -/
def GitHubMatcher.profileLoop (m : GitHubMatcher) :
    Nat → Results → List Call → Option Outcome
  | 0, _, _ => none
  | fuel + 1, r, calls =>
    match m.client.UsersGet calls.length r.user with
    | .error e =>
      if e.isRateLimitError then
        m.profileLoop fuel { r with err := some e } (calls ++ [Call.UsersGet r.user])
      else
        some ⟨{ r with err := some e }, calls ++ [Call.UsersGet r.user]⟩
    | .ok u =>
      some ⟨{ user := u.Login, name := u.Name, err := none }, calls ++ [Call.UsersGet r.user]⟩

/-- The goroutine of `GitHubMatcher.MatchByEmail` (lines 48 to 95): both loops
get `fuel` iterations.  `none`: the goroutine is still running. -/
def GitHubMatcher.task (m : GitHubMatcher) (fuel : Nat) (email : GoString) :
    Option Outcome :=
  match m.searchLoop email fuel (email ++ " in:email".toList) ⟨[], [], none⟩ [] with
  | none => none
  | some (Exit.ret, o) => some o
  | some (Exit.brk, o) => m.profileLoop fuel o.res o.calls

/-- Where the goroutine of `GitHubMatcher.MatchByEmail` stands between two
iterations of its loops. -/
inductive Stage where
  /-- At the top of the first loop, with the current value of `query`. -/
  | searching (query : GoString)
  /-- At the top of the second loop. -/
  | fetching
  /-- Past a `return`: the goroutine writes nothing more. -/
  | stopped
  deriving DecidableEq, Repr

/-- The goroutine between two iterations: where it stands, the named results
(which it shares with `MatchByEmail`) and the requests issued so far. -/
structure Goroutine where
  stage : Stage
  res : Results
  calls : List Call
  deriving DecidableEq, Repr

/-- The goroutine when it starts: `query := email + " in:email"`, the named
results are zero values, no request was issued. -/
def GitHubMatcher.start (email : GoString) : Goroutine :=
  ⟨Stage.searching (email ++ " in:email".toList), ⟨[], [], none⟩, []⟩

/-- One iteration of the loop the goroutine stands in: the body of the first
loop (lines 52 to 77) or of the second (lines 81 to 93). -/
def GitHubMatcher.step (m : GitHubMatcher) (email : GoString) (g : Goroutine) : Goroutine :=
  match g.stage with
  | .searching query =>
    if isNoReplyEmail email then
      { g with res := { g.res with user := userFromEmail email } }
    else
      match m.client.SearchUsers g.calls.length query with
      | .error e =>
        if e.isRateLimitError then
          ⟨Stage.searching query, { g.res with err := some e },
            g.calls ++ [Call.SearchUsers query]⟩
        else
          ⟨Stage.stopped, { g.res with err := some e }, g.calls ++ [Call.SearchUsers query]⟩
      | .ok users =>
        match users with
        | [] =>
          if Contains query ['@'] then
            ⟨Stage.searching (Replace query ['@'] [' '] 1), { g.res with err := none },
              g.calls ++ [Call.SearchUsers query]⟩
          else
            ⟨Stage.stopped, { g.res with err := some GoError.ErrNoMatches },
              g.calls ++ [Call.SearchUsers query]⟩
        | u :: _ =>
          ⟨Stage.fetching, { g.res with user := u.Login, err := none },
            g.calls ++ [Call.SearchUsers query]⟩
  | .fetching =>
    match m.client.UsersGet g.calls.length g.res.user with
    | .error e =>
      if e.isRateLimitError then
        ⟨Stage.fetching, { g.res with err := some e }, g.calls ++ [Call.UsersGet g.res.user]⟩
      else
        ⟨Stage.stopped, { g.res with err := some e }, g.calls ++ [Call.UsersGet g.res.user]⟩
    | .ok u =>
      ⟨Stage.stopped, { user := u.Login, name := u.Name, err := none },
        g.calls ++ [Call.UsersGet g.res.user]⟩
  | .stopped => g

/-- The goroutine after `n` more iterations. -/
def GitHubMatcher.steps (m : GitHubMatcher) (email : GoString) : Nat → Goroutine → Goroutine
  | 0, g => g
  | n + 1, g => m.steps email n (m.step email g)

/-- The case of the `select` statement that fires. -/
inductive SelectCase where
  /-- The case `<-finished`: the goroutine sent its completion signal. -/
  | finished
  /-- The case `<-ctx.Done()`.  Nothing stops the goroutine, and the named
  results are variables it shares with the method: the writes of `before`
  iterations of its loops land before `return "", "", context.Canceled` stores
  its three values into the named results, and the writes of `late` more
  iterations land after that store and before the results are read back for
  the caller. -/
  | ctxDone (before late : Nat)
  deriving DecidableEq, Repr

/-- The method `GitHubMatcher.MatchByEmail`, given the case of the `select`
that fires; a context that is never cancelled leaves `finished` only.
`none`: the call never returns.  On `ctx.Done()` line 100 stores the empty
strings and `context.Canceled` into the named results, and the caller gets
what the named results hold once the late writes of the goroutine have
landed. -/
def GitHubMatcher.MatchByEmail (m : GitHubMatcher) (sel : SelectCase) (fuel : Nat)
    (email : GoString) : Option Results :=
  match sel with
  | .finished => (m.task fuel email).map (·.res)
  | .ctxDone before late =>
    let g := m.steps email before (GitHubMatcher.start email)
    some (m.steps email late { g with res := ⟨[], [], some GoError.Canceled⟩ }).res

/-! ## GitLab -/

/-- A `gitlab.User`, of which the code reads `Username`. -/
structure GitLabUser where
  Username : GoString
  Name : GoString
  deriving DecidableEq, Repr

/-- The `gitlab.ListUsersOptions` the code builds: `Search` is the one field
it sets. -/
structure ListUsersOptions where
  Search : Option GoString
  deriving DecidableEq, Repr

/-- The `*gitlab.Client`: what `client.Users.ListUsers(opts)` returns. -/
structure GitLabClient where
  ListUsers : ListUsersOptions → Except GoError (List GitLabUser)

/-- The matcher of emails and GitLab users. -/
structure GitLabMatcher where
  client : GitLabClient

/-- The named results of `GitLabMatcher.MatchByEmail`. -/
structure GitLabResults where
  user : GoString
  err : Option GoError
  deriving DecidableEq, Repr

/-- The state of the goroutine of `GitLabMatcher.MatchByEmail` when it stops:
the named results and the options of the `ListUsers` requests issued. -/
structure GitLabOutcome where
  res : GitLabResults
  calls : List ListUsersOptions
  deriving DecidableEq, Repr

/-- The goroutine of `GitLabMatcher.MatchByEmail` (lines 33 to 53).  Every
path through the body of its `for` ends in `return`, so the body runs once. -/
def GitLabMatcher.task (m : GitLabMatcher) (email : GoString) : GitLabOutcome :=
  let opts : ListUsersOptions := { Search := some email }
  match m.client.ListUsers opts with
  | .error e => ⟨⟨[], some e⟩, [opts]⟩
  | .ok users =>
    match users with
    | [] => ⟨⟨[], some GoError.ErrNoMatches⟩, [opts]⟩
    | u :: _ => ⟨⟨u.Username, none⟩, [opts]⟩

/-- The method `GitLabMatcher.MatchByEmail`, given the case of the `select`
that fires.  On `ctx.Done()` line 58 stores the empty string and
`context.Canceled` into the named results.  The goroutine makes one pass
through the body of its loop; when the writes of that pass land after the
store (`before = 0` and `late > 0`) the caller reads them back: the pass
writes `err` on every path and `user` on the last, which leaves what it
leaves when it starts from the zero values. -/
def GitLabMatcher.MatchByEmail (m : GitLabMatcher) (sel : SelectCase)
    (email : GoString) : GitLabResults :=
  match sel with
  | .finished => (m.task email).res
  | .ctxDone before late =>
    if before = 0 ∧ 0 < late then (m.task email).res else ⟨[], some GoError.Canceled⟩

/-- A `context.Context`, as far as the caller can tell: whether it has been
cancelled. -/
structure Context where
  cancelled : Bool
  deriving DecidableEq, Repr

/-- The method `GitLabMatcher.SupportsMatchingByCommit`. -/
def GitLabMatcher.SupportsMatchingByCommit (_m : GitLabMatcher) : Bool :=
  false

/-- The method `GitLabMatcher.MatchByCommit`. -/
def GitLabMatcher.MatchByCommit (_m : GitLabMatcher) (_ctx : Context)
    (_email _repo _commit : GoString) : GoString × Option GoError :=
  ([], some (GoError.New "not implemented".toList))

/-- The method `GitLabMatcher.OnIdle`. -/
def GitLabMatcher.OnIdle (_m : GitLabMatcher) : Option GoError :=
  none

/-! ## Predicates used in the statements -/

/-- The username the specification reads off a placeholder email: the part
before the first `@`, and, when that part holds a `+`, everything after its
first `+`. -/
def userFromEmailSpec (email : GoString) : GoString :=
  let localPart := email.takeWhile (· != '@')
  if '+' ∈ localPart then (localPart.dropWhile (· != '+')).drop 1 else localPart

/-- The error the client answers request `call` with when `i` requests were
issued before it; `none` when it answers without error. -/
def Client.errorAt (c : Client) (i : Nat) : Call → Option GoError
  | .SearchUsers query =>
    match c.SearchUsers i query with
    | .error e => some e
    | .ok _ => none
  | .UsersGet user =>
    match c.UsersGet i user with
    | .error e => some e
    | .ok _ => none

/-- Every request of `calls` that the client answers with a rate limit error
is followed by the same request, in `calls` continued by `next`. -/
def Retried (c : Client) (calls next : List Call) : Prop :=
  ∀ i call e, calls[i]? = some call → c.errorAt i call = some e →
    e.isRateLimitError = true → (calls ++ next)[i + 1]? = some call

/-- The query of the search the first loop issues after `i` searches that sent
it round again: `<email> in:email` at first, the same query again after an
error, and the query with its first `@` replaced by a space after a search
that found zero users. -/
def GitHubMatcher.queryAt (m : GitHubMatcher) (email : GoString) : Nat → GoString
  | 0 => email ++ " in:email".toList
  | i + 1 =>
    match m.client.SearchUsers i (m.queryAt email i) with
    | .ok [] => Replace (m.queryAt email i) ['@'] [' '] 1
    | _ => m.queryAt email i

/-- The answer to search number `i` sends the first loop round again: a rate
limit error, or zero users for a query that still holds an `@`. -/
def GitHubMatcher.searchRetried (m : GitHubMatcher) (email : GoString) (i : Nat) : Bool :=
  match m.client.SearchUsers i (m.queryAt email i) with
  | .error e => e.isRateLimitError
  | .ok [] => Contains (m.queryAt email i) ['@']
  | .ok (_ :: _) => false

/-- The answer to request number `i`, a profile fetch for `login`, sends the
second loop round again: a rate limit error. -/
def GitHubMatcher.fetchRetried (m : GitHubMatcher) (i : Nat) (login : GoString) : Bool :=
  match m.client.UsersGet i login with
  | .error e => e.isRateLimitError
  | .ok _ => false

/-- Where the goroutine stands once the first loop is left. -/
def Exit.stage : Exit → Stage
  | .brk => Stage.fetching
  | .ret => Stage.stopped

/-- The request is a user search. -/
def Call.isSearch : Call → Bool
  | .SearchUsers _ => true
  | .UsersGet _ => false

/-- The client never answers with a rate limit error. -/
def Client.NoRateLimit (c : Client) : Prop :=
  (∀ i query e, c.SearchUsers i query = .error e → e.isRateLimitError = false) ∧
  (∀ i user e, c.UsersGet i user = .error e → e.isRateLimitError = false)

/-! ## Clients used as examples -/

/-- A client that finds no user, whatever the query. -/
def emptyClient : Client :=
  ⟨fun _ _ => .ok [], fun _ _ => .error (GoError.Other 404)⟩

/-- A client whose search finds the login `bob` and whose profile fetch fails
with an error that is no rate limit error. -/
def brokenProfileClient : Client :=
  ⟨fun _ _ => .ok [⟨"bob".toList, []⟩], fun _ _ => .error (GoError.Other 500)⟩

/-- A client that answers the first search and the first profile fetch with a
rate limit error, and then finds the login `octocat` and serves the profile
`Octocat`, named `The Octocat`. -/
def busyClient : Client :=
  ⟨fun i _ => if i = 0 then .error (GoError.RateLimitError 60)
      else .ok [⟨"octocat".toList, []⟩],
   fun i _ => if i = 2 then .error (GoError.RateLimitError 120)
      else .ok ⟨"Octocat".toList, "The Octocat".toList⟩⟩

/-- A client whose first search finds nobody, whose second search (the query
with a space for the `@`) is answered with a rate limit error and whose third
search finds the login `octocat`; the first profile fetch is answered with a
rate limit error and the second serves the profile `Octocat`. -/
def fallbackClient : Client :=
  ⟨fun i _ => if i = 0 then .ok [] else if i = 1 then .error (GoError.RateLimitError 60)
      else .ok [⟨"octocat".toList, []⟩],
   fun i _ => if i = 3 then .error (GoError.RateLimitError 120)
      else .ok ⟨"Octocat".toList, "The Octocat".toList⟩⟩

/-- A GitLab client that finds the user `alice`. -/
def aliceClient : GitLabClient :=
  ⟨fun _ => .ok [⟨"alice".toList, "Alice".toList⟩]⟩

/-! ## Facts about the `strings` package on one-character separators -/

theorem Index_singleton_of_not_mem (c : Char) (s : GoString) (h : c ∉ s) :
    Index s [c] = none := by
  induction s with
  | nil => simp [Index, List.isPrefixOf]
  | cons a t ih =>
    have hne : ¬ (c = a) := fun hca => h (hca ▸ List.mem_cons_self _ _)
    have ht : c ∉ t := fun hm => h (List.mem_cons_of_mem _ hm)
    simp [Index, List.isPrefixOf, hne, ih ht]

theorem Index_singleton_append (c : Char) (a b : GoString) (h : c ∉ a) :
    Index (a ++ c :: b) [c] = some a.length := by
  induction a with
  | nil => simp [Index, List.isPrefixOf]
  | cons x t ih =>
    have hne : ¬ (c = x) := fun hcx => h (hcx ▸ List.mem_cons_self _ _)
    have ht : c ∉ t := fun hm => h (List.mem_cons_of_mem _ hm)
    simp [Index, List.isPrefixOf, hne, ih ht]

theorem Contains_singleton (c : Char) (s : GoString) :
    Contains s [c] = decide (c ∈ s) := by
  by_cases h : c ∈ s
  · obtain ⟨a, b, rfl, ha⟩ := List.eq_append_cons_of_mem h
    simp [Contains, Index_singleton_append c a b ha]
  · simp [Contains, Index_singleton_of_not_mem c s h, h]

theorem takeWhile_ne_append (c : Char) (a b : GoString) (h : c ∉ a) :
    (a ++ c :: b).takeWhile (· != c) = a := by
  induction a with
  | nil => simp [List.takeWhile]
  | cons x t ih =>
    have hne : (x != c) = true := by
      simpa using fun hcx : x = c => h (hcx ▸ List.mem_cons_self _ _)
    have ht : c ∉ t := fun hm => h (List.mem_cons_of_mem _ hm)
    simp [List.takeWhile, hne, ih ht]

theorem dropWhile_ne_append (c : Char) (a b : GoString) (h : c ∉ a) :
    (a ++ c :: b).dropWhile (· != c) = c :: b := by
  induction a with
  | nil => simp [List.dropWhile]
  | cons x t ih =>
    have hne : (x != c) = true := by
      simpa using fun hcx : x = c => h (hcx ▸ List.mem_cons_self _ _)
    have ht : c ∉ t := fun hm => h (List.mem_cons_of_mem _ hm)
    simp [List.dropWhile, hne, ih ht]

theorem takeWhile_ne_of_not_mem (c : Char) (s : GoString) (h : c ∉ s) :
    s.takeWhile (· != c) = s := by
  induction s with
  | nil => rfl
  | cons x t ih =>
    have hne : (x != c) = true := by
      simpa using fun hcx : x = c => h (hcx ▸ List.mem_cons_self _ _)
    have ht : c ∉ t := fun hm => h (List.mem_cons_of_mem _ hm)
    simp [List.takeWhile, hne, ih ht]

theorem countLoop_singleton (c : Char) (fuel : Nat) (s : GoString)
    (h : s.length ≤ fuel) : countLoop [c] fuel s = s.count c := by
  induction fuel generalizing s with
  | zero =>
    have : s = [] := List.length_eq_zero.mp (Nat.le_zero.mp h)
    subst this
    simp [countLoop]
  | succ n ih =>
    by_cases hc : c ∈ s
    · obtain ⟨a, b, rfl, ha⟩ := List.eq_append_cons_of_mem hc
      have hb : b.length ≤ n := by
        simp only [List.length_append, List.length_cons] at h
        omega
      simp [countLoop, Index_singleton_append c a b ha, ih b hb,
        List.count_eq_zero_of_not_mem ha]
    · simp [countLoop, Index_singleton_of_not_mem c s hc, List.count_eq_zero_of_not_mem hc]

theorem Count_singleton (c : Char) (s : GoString) : Count s [c] = s.count c :=
  countLoop_singleton c s.length s (Nat.le_refl _)

theorem genSplit_singleton_append (c : Char) (n : Nat) (a b : GoString) (h : c ∉ a) :
    genSplit [c] (n + 1) (a ++ c :: b) = a :: genSplit [c] n b := by
  simp [genSplit, Index_singleton_append c a b h]

theorem genSplit_singleton_of_not_mem (c : Char) (n : Nat) (s : GoString) (h : c ∉ s) :
    genSplit [c] n s = [s] := by
  cases n with
  | zero => rfl
  | succ k => simp [genSplit, Index_singleton_of_not_mem c s h]

theorem Split_singleton_of_not_mem (c : Char) (s : GoString) (h : c ∉ s) :
    Split s [c] = [s] :=
  genSplit_singleton_of_not_mem c _ s h

theorem Split_singleton_append (c : Char) (a b : GoString) (h : c ∉ a) :
    Split (a ++ c :: b) [c] = a :: Split b [c] := by
  simp [Split, Count_singleton, List.count_eq_zero_of_not_mem h,
    genSplit_singleton_append c _ a b h]

theorem Split_singleton_getD_zero (c : Char) (s : GoString) :
    (Split s [c]).getD 0 [] = s.takeWhile (· != c) := by
  by_cases hc : c ∈ s
  · obtain ⟨a, b, rfl, ha⟩ := List.eq_append_cons_of_mem hc
    simp [Split_singleton_append c a b ha, takeWhile_ne_append c a b ha]
  · simp [Split_singleton_of_not_mem c s hc, takeWhile_ne_of_not_mem c s hc]

theorem Split_singleton_getD_one (c : Char) (s : GoString) (hc : c ∈ s) :
    (Split s [c]).getD 1 [] = ((s.dropWhile (· != c)).drop 1).takeWhile (· != c) := by
  obtain ⟨a, b, rfl, ha⟩ := List.eq_append_cons_of_mem hc
  have := Split_singleton_getD_zero c b
  simp [Split_singleton_append c a b ha, dropWhile_ne_append c a b ha] at this ⊢
  simpa using this

theorem Replace_singleton_one_append (c : Char) (a b new : GoString) (h : c ∉ a) :
    Replace (a ++ c :: b) [c] new 1 = a ++ new ++ b := by
  simp [Replace, Index_singleton_append c a b h]

/-! ## The username of a placeholder email -/

theorem userFromEmail_segment (email : GoString) :
    userFromEmail email =
      (if '+' ∈ email.takeWhile (· != '@') then
        (((email.takeWhile (· != '@')).dropWhile (· != '+')).drop 1).takeWhile (· != '+')
      else email.takeWhile (· != '@')) := by
  unfold userFromEmail
  simp only [Split_singleton_getD_zero, Contains_singleton]
  by_cases hp : '+' ∈ email.takeWhile (· != '@')
  · simp only [hp, decide_True, if_true]
    exact Split_singleton_getD_one '+' _ hp
  · simp only [hp, decide_False, if_false, Bool.false_eq_true]

/-- Where the part before the first `@` holds at most one `+`, the code and
the words of the specification agree. -/
theorem userFromEmail_eq_spec (email : GoString)
    (h : (email.takeWhile (· != '@')).count '+' ≤ 1) :
    userFromEmail email = userFromEmailSpec email := by
  rw [userFromEmail_segment email, userFromEmailSpec]
  by_cases hp : '+' ∈ email.takeWhile (· != '@')
  · simp only [hp, if_true]
    obtain ⟨a, b, hab, ha⟩ := List.eq_append_cons_of_mem hp
    rw [hab] at h ⊢
    rw [dropWhile_ne_append '+' a b ha]
    have hb : '+' ∉ b := by
      intro hb
      have := List.count_pos_iff.mpr hb
      simp [List.count_append, List.count_cons] at h
      omega
    simpa using takeWhile_ne_of_not_mem '+' b hb
  · simp only [hp, if_false]

/-! ## The goroutine: fuel -/

theorem searchLoop_noreply (m : GitHubMatcher) (email : GoString)
    (h : isNoReplyEmail email = true) (fuel : Nat) (query : GoString) (r : Results)
    (calls : List Call) : m.searchLoop email fuel query r calls = none := by
  induction fuel generalizing r with
  | zero => rfl
  | succ n ih =>
    rw [GitHubMatcher.searchLoop, if_pos h]
    exact ih _

theorem task_noreply (m : GitHubMatcher) (email : GoString)
    (h : isNoReplyEmail email = true) (fuel : Nat) : m.task fuel email = none := by
  simp [GitHubMatcher.task, searchLoop_noreply m email h]

theorem searchLoop_succ_of_some (m : GitHubMatcher) (email : GoString) (fuel : Nat)
    (query : GoString) (r : Results) (calls : List Call) (x : Exit × Outcome)
    (h : m.searchLoop email fuel query r calls = some x) :
    m.searchLoop email (fuel + 1) query r calls = some x := by
  induction fuel generalizing query r calls with
  | zero => simp [GitHubMatcher.searchLoop] at h
  | succ n ih =>
    rw [GitHubMatcher.searchLoop] at h ⊢
    by_cases hn : isNoReplyEmail email = true
    · rw [if_pos hn] at h ⊢
      exact ih _ _ _ h
    · rw [if_neg hn] at h ⊢
      cases hresp : m.client.SearchUsers calls.length query with
      | error e =>
        simp only [hresp] at h ⊢
        by_cases hrl : e.isRateLimitError = true
        · rw [if_pos hrl] at h ⊢
          exact ih _ _ _ h
        · rw [if_neg hrl] at h ⊢
          exact h
      | ok users =>
        simp only [hresp] at h ⊢
        cases users with
        | nil =>
          simp only at h ⊢
          by_cases hc : Contains query ['@'] = true
          · rw [if_pos hc] at h ⊢
            exact ih _ _ _ h
          · rw [if_neg hc] at h ⊢
            exact h
        | cons u rest =>
          simp only at h ⊢
          exact h

theorem profileLoop_succ_of_some (m : GitHubMatcher) (fuel : Nat) (r : Results)
    (calls : List Call) (o : Outcome) (h : m.profileLoop fuel r calls = some o) :
    m.profileLoop (fuel + 1) r calls = some o := by
  induction fuel generalizing r calls with
  | zero => simp [GitHubMatcher.profileLoop] at h
  | succ n ih =>
    rw [GitHubMatcher.profileLoop] at h ⊢
    cases hresp : m.client.UsersGet calls.length r.user with
    | error e =>
      simp only [hresp] at h ⊢
      by_cases hrl : e.isRateLimitError = true
      · rw [if_pos hrl] at h ⊢
        exact ih _ _ h
      · rw [if_neg hrl] at h ⊢
        exact h
    | ok u =>
      simp only [hresp] at h ⊢
      exact h

theorem searchLoop_add_of_some (m : GitHubMatcher) (email : GoString) (fuel extra : Nat)
    (query : GoString) (r : Results) (calls : List Call) (x : Exit × Outcome)
    (h : m.searchLoop email fuel query r calls = some x) :
    m.searchLoop email (fuel + extra) query r calls = some x := by
  induction extra with
  | zero => exact h
  | succ k ih => exact searchLoop_succ_of_some m email _ query r calls x ih

theorem profileLoop_add_of_some (m : GitHubMatcher) (fuel extra : Nat) (r : Results)
    (calls : List Call) (o : Outcome) (h : m.profileLoop fuel r calls = some o) :
    m.profileLoop (fuel + extra) r calls = some o := by
  induction extra with
  | zero => exact h
  | succ k ih => exact profileLoop_succ_of_some m _ r calls o ih

/-- More fuel never changes what the goroutine returns. -/
theorem task_add_of_some (m : GitHubMatcher) (fuel extra : Nat) (email : GoString)
    (o : Outcome) (h : m.task fuel email = some o) :
    m.task (fuel + extra) email = some o := by
  rw [GitHubMatcher.task] at h ⊢
  cases hs : m.searchLoop email fuel (email ++ " in:email".toList) ⟨[], [], none⟩ [] with
  | none =>
    rw [hs] at h
    exact absurd h (by simp)
  | some x =>
    rw [searchLoop_add_of_some m email fuel extra _ _ _ x hs]
    rw [hs] at h
    obtain ⟨ex, o'⟩ := x
    cases ex with
    | ret => exact h
    | brk => exact profileLoop_add_of_some m fuel extra _ _ o h

/-! ## The zero-result fallback -/

theorem count_Replace_at (query : GoString) (h : '@' ∈ query) :
    (Replace query ['@'] [' '] 1).count '@' + 1 = query.count '@' := by
  obtain ⟨a, b, rfl, ha⟩ := List.eq_append_cons_of_mem h
  rw [Replace_singleton_one_append '@' a b [' '] ha]
  simp [List.count_append, List.count_cons]
  omega

theorem searchLoop_no_users (m : GitHubMatcher) (email : GoString)
    (hn : isNoReplyEmail email = false)
    (hs : ∀ i query, m.client.SearchUsers i query = .ok [])
    (n : Nat) (query : GoString) (r : Results) (calls : List Call)
    (hq : query.count '@' = n) :
    m.searchLoop email (n + 1) query r calls =
      some (Exit.ret, ⟨{ r with err := some GoError.ErrNoMatches },
        calls ++ (List.iterate (fun q => Replace q ['@'] [' '] 1) query (n + 1)).map
          Call.SearchUsers⟩) := by
  induction n generalizing query r calls with
  | zero =>
    have hc : '@' ∉ query := List.count_eq_zero.mp hq
    rw [GitHubMatcher.searchLoop]
    simp [hn, hs, Contains_singleton, hc, List.iterate]
  | succ k ih =>
    have hc : '@' ∈ query := List.count_pos_iff.mp (by omega)
    have hk : (Replace query ['@'] [' '] 1).count '@' = k := by
      have := count_Replace_at query hc
      omega
    rw [GitHubMatcher.searchLoop]
    simp only [hn, hs, Contains_singleton, hc, decide_True, if_true, Bool.false_eq_true,
      if_false]
    rw [ih _ _ _ hk]
    simp [List.iterate]

/-! ## Rate limit retries -/

theorem Retried_retry (c : Client) (calls : List Call) (x : Call)
    (h : Retried c calls [x]) : Retried c (calls ++ [x]) [x] := by
  intro i call e hi he hrl
  rcases Nat.lt_trichotomy i calls.length with hlt | heq | hgt
  · have hi' : calls[i]? = some call := by rwa [List.getElem?_append_left hlt] at hi
    have h1 := h i call e hi' he hrl
    have hlen : i + 1 < (calls ++ [x]).length := by
      simp only [List.length_append, List.length_singleton]
      omega
    rw [List.getElem?_append_left hlen]
    exact h1
  · subst heq
    simp at hi
    subst hi
    rw [List.getElem?_append_right (by simp)]
    simp
  · have hnone : (calls ++ [x])[i]? = none := by
      apply List.getElem?_eq_none
      simp only [List.length_append, List.length_singleton]
      omega
    rw [hnone] at hi
    cases hi

theorem Retried_advance (c : Client) (calls : List Call) (x : Call)
    (h : Retried c calls [x])
    (hx : ∀ e, c.errorAt calls.length x = some e → e.isRateLimitError = false)
    (next : List Call) : Retried c (calls ++ [x]) next := by
  intro i call e hi he hrl
  rcases Nat.lt_trichotomy i calls.length with hlt | heq | hgt
  · have hi' : calls[i]? = some call := by rwa [List.getElem?_append_left hlt] at hi
    have h1 := h i call e hi' he hrl
    have hlen : i + 1 < (calls ++ [x]).length := by
      simp only [List.length_append, List.length_singleton]
      omega
    rw [List.getElem?_append_left hlen]
    exact h1
  · subst heq
    simp at hi
    subst hi
    have := hx e he
    rw [this] at hrl
    cases hrl
  · have hnone : (calls ++ [x])[i]? = none := by
      apply List.getElem?_eq_none
      simp only [List.length_append, List.length_singleton]
      omega
    rw [hnone] at hi
    cases hi

theorem searchLoop_spec (m : GitHubMatcher) (email : GoString) (fuel : Nat)
    (query : GoString) (r : Results) (calls : List Call) (ex : Exit) (o : Outcome)
    (hret : Retried m.client calls [Call.SearchUsers query])
    (h : m.searchLoop email fuel query r calls = some (ex, o)) :
    (∀ next, Retried m.client o.calls next) ∧ o.res.name = r.name ∧
    (ex = Exit.ret → o.res.user = r.user ∧
      (o.res.err = some GoError.ErrNoMatches ∨
        ∃ c e, o.calls.getLast? = some c ∧
          m.client.errorAt (o.calls.length - 1) c = some e ∧
          e.isRateLimitError = false ∧ o.res.err = some e)) ∧
    (ex = Exit.brk → o.res.err = none) := by
  induction fuel generalizing query r calls with
  | zero => simp [GitHubMatcher.searchLoop] at h
  | succ n ih =>
    by_cases hn : isNoReplyEmail email = true
    · rw [searchLoop_noreply m email hn] at h
      cases h
    · rw [GitHubMatcher.searchLoop, if_neg hn] at h
      cases hresp : m.client.SearchUsers calls.length query with
      | error e =>
        simp only [hresp] at h
        have herr : m.client.errorAt calls.length (Call.SearchUsers query) = some e := by
          simp [Client.errorAt, hresp]
        by_cases hrl : e.isRateLimitError = true
        · rw [if_pos hrl] at h
          exact ih _ { r with err := some e } _ (Retried_retry _ _ _ hret) h
        · rw [if_neg hrl] at h
          simp only [Option.some.injEq, Prod.mk.injEq] at h
          obtain ⟨rfl, rfl⟩ := h
          have hrl' : e.isRateLimitError = false := by simpa using hrl
          refine ⟨?_, rfl, ?_, ?_⟩
          · intro next
            apply Retried_advance _ _ _ hret
            intro e' he'
            rw [herr] at he'
            cases he'
            exact hrl'
          · intro _
            refine ⟨rfl, Or.inr ⟨Call.SearchUsers query, e, ?_, ?_, hrl', rfl⟩⟩
            · simp
            · simpa using herr
          · intro hex
            cases hex
      | ok users =>
        simp only [hresp] at h
        have herr : ∀ e, m.client.errorAt calls.length (Call.SearchUsers query) = some e →
            e.isRateLimitError = false := by
          intro e he
          simp [Client.errorAt, hresp] at he
        cases users with
        | nil =>
          simp only at h
          by_cases hc : Contains query ['@'] = true
          · rw [if_pos hc] at h
            exact ih _ { r with err := none } _ (Retried_advance _ _ _ hret herr _) h
          · rw [if_neg hc] at h
            simp only [Option.some.injEq, Prod.mk.injEq] at h
            obtain ⟨rfl, rfl⟩ := h
            refine ⟨fun next => Retried_advance _ _ _ hret herr next, rfl, ?_, ?_⟩
            · intro _
              exact ⟨rfl, Or.inl rfl⟩
            · intro hex
              cases hex
        | cons u rest =>
          simp only [Option.some.injEq, Prod.mk.injEq] at h
          obtain ⟨rfl, rfl⟩ := h
          refine ⟨fun next => Retried_advance _ _ _ hret herr next, rfl, ?_, ?_⟩
          · intro hex
            cases hex
          · intro _
            rfl

theorem profileLoop_spec (m : GitHubMatcher) (fuel : Nat) (r : Results)
    (calls : List Call) (o : Outcome)
    (hret : Retried m.client calls [Call.UsersGet r.user])
    (h : m.profileLoop fuel r calls = some o) :
    Retried m.client o.calls [] ∧
    (o.res.err = none ∨
      (o.res.name = r.name ∧ o.res.user = r.user ∧
        o.calls.getLast? = some (Call.UsersGet r.user) ∧
        ∃ e, m.client.errorAt (o.calls.length - 1) (Call.UsersGet r.user) = some e ∧
          e.isRateLimitError = false ∧ o.res.err = some e)) := by
  induction fuel generalizing r calls with
  | zero => simp [GitHubMatcher.profileLoop] at h
  | succ n ih =>
    rw [GitHubMatcher.profileLoop] at h
    cases hresp : m.client.UsersGet calls.length r.user with
    | error e =>
      simp only [hresp] at h
      have herr : m.client.errorAt calls.length (Call.UsersGet r.user) = some e := by
        simp [Client.errorAt, hresp]
      by_cases hrl : e.isRateLimitError = true
      · rw [if_pos hrl] at h
        exact ih { r with err := some e } _ (Retried_retry _ _ _ hret) h
      · rw [if_neg hrl] at h
        simp only [Option.some.injEq] at h
        subst h
        have hrl' : e.isRateLimitError = false := by simpa using hrl
        refine ⟨?_, Or.inr ⟨rfl, rfl, by simp, e, by simpa using herr, hrl', rfl⟩⟩
        apply Retried_advance _ _ _ hret
        intro e' he'
        rw [herr] at he'
        cases he'
        exact hrl'
    | ok u =>
      simp only [hresp, Option.some.injEq] at h
      subst h
      refine ⟨?_, Or.inl rfl⟩
      apply Retried_advance _ _ _ hret
      intro e he
      simp [Client.errorAt, hresp] at he

theorem Retried_nil (c : Client) (next : List Call) : Retried c [] next := by
  intro i call e hi
  simp at hi

/-- What the goroutine leaves behind when it stops: every request answered
with a rate limit error was repeated, and an error it returns is either
`ErrNoMatches` or the error of its last request, which is no rate limit
error; on an error the display name is empty, and the username is empty
unless the request that failed is the profile fetch. -/
theorem task_spec (m : GitHubMatcher) (fuel : Nat) (email : GoString) (o : Outcome)
    (h : m.task fuel email = some o) :
    Retried m.client o.calls [] ∧
    (o.res.err = none ∨
      (o.res.name = [] ∧
        ((o.res.err = some GoError.ErrNoMatches ∧ o.res.user = []) ∨
          ∃ c e, o.calls.getLast? = some c ∧
            m.client.errorAt (o.calls.length - 1) c = some e ∧
            e.isRateLimitError = false ∧ o.res.err = some e ∧
            (o.res.user = [] ∨ c = Call.UsersGet o.res.user)))) := by
  rw [GitHubMatcher.task] at h
  cases hs : m.searchLoop email fuel (email ++ " in:email".toList) ⟨[], [], none⟩ [] with
  | none =>
    rw [hs] at h
    exact absurd h (by simp)
  | some x =>
    rw [hs] at h
    obtain ⟨ex, o1⟩ := x
    obtain ⟨hr, hname, hretc, hbrk⟩ :=
      searchLoop_spec m email fuel _ _ _ ex o1 (Retried_nil _ _) hs
    cases ex with
    | ret =>
      simp only [Option.some.injEq] at h
      subst h
      obtain ⟨huser, herr⟩ := hretc rfl
      refine ⟨hr [], Or.inr ⟨hname, ?_⟩⟩
      rcases herr with herr | ⟨c, e, h1, h2, h3, h4⟩
      · exact Or.inl ⟨herr, huser⟩
      · exact Or.inr ⟨c, e, h1, h2, h3, h4, Or.inl huser⟩
    | brk =>
      simp only at h
      obtain ⟨hp, hres⟩ := profileLoop_spec m fuel o1.res o1.calls o (hr _) h
      refine ⟨hp, ?_⟩
      rcases hres with hnone | ⟨h1, h2, h3, e, h4, h5, h6⟩
      · exact Or.inl hnone
      · refine Or.inr ⟨by rw [h1, hname], Or.inr ⟨_, e, h3, h4, h5, h6, Or.inr ?_⟩⟩
        rw [h2]

/-- The display name `GitHubMatcher.MatchByEmail` returns with an error, when
the goroutine sends its completion signal, is empty, and so is the username
unless the request that failed is the profile fetch. -/
theorem GitHubMatcher_error_results (m : GitHubMatcher) (fuel : Nat)
    (email : GoString) (r : Results)
    (h : m.MatchByEmail SelectCase.finished fuel email = some r) (he : r.err ≠ none) :
    r.name = [] ∧
    (r.user = [] ∨
      ∃ o, m.task fuel email = some o ∧ o.calls.getLast? = some (Call.UsersGet r.user)) := by
  simp only [GitHubMatcher.MatchByEmail, Option.map_eq_some'] at h
  obtain ⟨o, ho, rfl⟩ := h
  rcases (task_spec m fuel email o ho).2 with hnone | ⟨hname, ⟨_, hu⟩ | ⟨c, e, h1, _, _, _, hu⟩⟩
  · exact absurd hnone he
  · exact ⟨hname, Or.inl hu⟩
  · refine ⟨hname, ?_⟩
    rcases hu with hu | hu
    · exact Or.inl hu
    · exact Or.inr ⟨o, ho, by rw [h1, hu]⟩

theorem GitLabMatcher_task_error (m : GitLabMatcher) (email : GoString)
    (he : (m.task email).res.err ≠ none) : (m.task email).res.user = [] := by
  unfold GitLabMatcher.task at he ⊢
  cases h : m.client.ListUsers ⟨some email⟩ with
  | error e => simp [h]
  | ok users =>
    cases users with
    | nil => simp [h]
    | cons u rest => simp [h] at he

/-- The username `GitLabMatcher.MatchByEmail` returns with an error is empty. -/
theorem GitLabMatcher_error_results (m : GitLabMatcher) (sel : SelectCase)
    (email : GoString) (he : (m.MatchByEmail sel email).err ≠ none) :
    (m.MatchByEmail sel email).user = [] := by
  cases sel with
  | finished => exact GitLabMatcher_task_error m email he
  | ctxDone before late =>
    unfold GitLabMatcher.MatchByEmail at he ⊢
    by_cases hc : before = 0 ∧ 0 < late
    · simp only [hc, and_self, if_true] at he ⊢
      exact GitLabMatcher_task_error m email he
    · simp only [hc, if_false]

/-! ## Termination without rate limits -/

theorem searchLoop_terminates (m : GitHubMatcher) (email : GoString)
    (hn : isNoReplyEmail email = false)
    (hq : ∀ i query e, m.client.SearchUsers i query = .error e → e.isRateLimitError = false)
    (n : Nat) (query : GoString) (r : Results) (calls : List Call)
    (hlt : query.count '@' < n) :
    ∃ ex o ext, m.searchLoop email n query r calls = some (ex, o) ∧
      o.calls = calls ++ ext ∧ ext.length ≤ query.count '@' + 1 ∧
      ∀ c ∈ ext, c.isSearch = true := by
  induction n generalizing query r calls with
  | zero => omega
  | succ k ih =>
    rw [GitHubMatcher.searchLoop]
    simp only [hn, Bool.false_eq_true, if_false]
    cases hresp : m.client.SearchUsers calls.length query with
    | error e =>
      simp only [hq _ _ e hresp, Bool.false_eq_true, if_false]
      exact ⟨_, _, [Call.SearchUsers query], rfl, rfl, by simp, by simp [Call.isSearch]⟩
    | ok users =>
      cases users with
      | nil =>
        simp only
        by_cases hc : '@' ∈ query
        · simp only [Contains_singleton, hc, decide_True, if_true]
          have hcount := count_Replace_at query hc
          obtain ⟨ex, o, ext, h1, h2, h3, h4⟩ :=
            ih (Replace query ['@'] [' '] 1) { r with err := none }
              (calls ++ [Call.SearchUsers query]) (by omega)
          refine ⟨ex, o, Call.SearchUsers query :: ext, h1, ?_, ?_, ?_⟩
          · rw [h2]
            simp
          · simp only [List.length_cons]
            omega
          · intro c hcm
            rcases List.mem_cons.mp hcm with rfl | hcm
            · rfl
            · exact h4 c hcm
        · simp only [Contains_singleton, hc, decide_False, Bool.false_eq_true, if_false]
          exact ⟨_, _, [Call.SearchUsers query], rfl, rfl, by simp, by simp [Call.isSearch]⟩
      | cons u rest =>
        simp only
        exact ⟨_, _, [Call.SearchUsers query], rfl, rfl, by simp, by simp [Call.isSearch]⟩

theorem profileLoop_terminates (m : GitHubMatcher)
    (hq : ∀ i user e, m.client.UsersGet i user = .error e → e.isRateLimitError = false)
    (n : Nat) (r : Results) (calls : List Call) :
    ∃ res, m.profileLoop (n + 1) r calls = some ⟨res, calls ++ [Call.UsersGet r.user]⟩ := by
  rw [GitHubMatcher.profileLoop]
  cases hresp : m.client.UsersGet calls.length r.user with
  | error e =>
    simp only [hq _ _ e hresp, Bool.false_eq_true, if_false]
    exact ⟨_, rfl⟩
  | ok u => exact ⟨_, rfl⟩

/-- For an email that is no placeholder and holds `k` characters `@`, against
a client that never answers with a rate limit error, the goroutine terminates
within `k + 1` iterations of each loop, after at most `k + 1` searches and at
most one profile fetch. -/
theorem task_terminates_of_no_rate_limit (m : GitHubMatcher) (email : GoString)
    (extra : Nat) (hn : isNoReplyEmail email = false) (hq : m.client.NoRateLimit) :
    ∃ o, m.task (email.count '@' + 1 + extra) email = some o ∧
      o.calls.countP Call.isSearch ≤ email.count '@' + 1 ∧
      o.calls.countP (fun c => !c.isSearch) ≤ 1 := by
  have hcount : (email ++ " in:email".toList).count '@' = email.count '@' := by
    rw [List.count_append]
    have : (" in:email".toList).count '@' = 0 := by decide
    omega
  obtain ⟨ex, o1, ext, h1, h2, h3, h4⟩ :=
    searchLoop_terminates m email hn hq.1 (email.count '@' + 1)
      (email ++ " in:email".toList) ⟨[], [], none⟩ [] (by omega)
  have h1' := searchLoop_add_of_some m email _ extra _ _ _ _ h1
  have hs : ext.countP Call.isSearch ≤ email.count '@' + 1 := by
    have := List.countP_le_length Call.isSearch (l := ext)
    omega
  have hg : ext.countP (fun c => !c.isSearch) = 0 := by
    rw [List.countP_eq_zero]
    intro c hc
    simp [h4 c hc]
  rw [List.nil_append] at h2
  cases ex with
  | ret =>
    refine ⟨o1, ?_, ?_, ?_⟩
    · rw [GitHubMatcher.task, h1']
    · rw [h2]
      exact hs
    · rw [h2, hg]
      omega
  | brk =>
    obtain ⟨res, hp⟩ := profileLoop_terminates m hq.2 (email.count '@' + extra) o1.res o1.calls
    refine ⟨⟨res, o1.calls ++ [Call.UsersGet o1.res.user]⟩, ?_, ?_, ?_⟩
    · rw [GitHubMatcher.task, h1']
      have : email.count '@' + 1 + extra = email.count '@' + extra + 1 := by omega
      rw [this]
      exact hp
    · rw [h2, List.countP_append]
      simp [Call.isSearch]
      exact hs
    · rw [h2, List.countP_append, hg]
      simp [Call.isSearch]

/-! ## The loops and the iterations of the goroutine -/

theorem steps_add (m : GitHubMatcher) (email : GoString) (a b : Nat) (g : Goroutine) :
    m.steps email (a + b) g = m.steps email b (m.steps email a g) := by
  induction a generalizing g with
  | zero => simp [GitHubMatcher.steps]
  | succ n ih =>
    rw [Nat.add_right_comm, GitHubMatcher.steps, GitHubMatcher.steps]
    exact ih _

theorem searchLoop_steps (m : GitHubMatcher) (email : GoString) (fuel : Nat)
    (query : GoString) (r : Results) (calls : List Call) (ex : Exit) (o : Outcome)
    (h : m.searchLoop email fuel query r calls = some (ex, o)) :
    ∃ n, m.steps email n ⟨Stage.searching query, r, calls⟩ =
      ⟨ex.stage, o.res, o.calls⟩ := by
  induction fuel generalizing query r calls with
  | zero => simp [GitHubMatcher.searchLoop] at h
  | succ k ih =>
    by_cases hn : isNoReplyEmail email = true
    · rw [searchLoop_noreply m email hn] at h
      cases h
    · rw [GitHubMatcher.searchLoop, if_neg hn] at h
      cases hresp : m.client.SearchUsers calls.length query with
      | error e =>
        simp only [hresp] at h
        by_cases hrl : e.isRateLimitError = true
        · rw [if_pos hrl] at h
          obtain ⟨n, hsteps⟩ := ih _ _ _ h
          refine ⟨n + 1, ?_⟩
          have hstep : m.step email ⟨Stage.searching query, r, calls⟩ =
              ⟨Stage.searching query, { r with err := some e },
                calls ++ [Call.SearchUsers query]⟩ := by
            simp [GitHubMatcher.step, hn, hresp, hrl]
          rw [GitHubMatcher.steps, hstep]
          exact hsteps
        · rw [if_neg hrl] at h
          simp only [Option.some.injEq, Prod.mk.injEq] at h
          obtain ⟨rfl, rfl⟩ := h
          refine ⟨1, ?_⟩
          simp [GitHubMatcher.steps, GitHubMatcher.step, hn, hresp, hrl, Exit.stage]
      | ok users =>
        simp only [hresp] at h
        cases users with
        | nil =>
          simp only at h
          by_cases hc : Contains query ['@'] = true
          · rw [if_pos hc] at h
            obtain ⟨n, hsteps⟩ := ih _ _ _ h
            refine ⟨n + 1, ?_⟩
            have hstep : m.step email ⟨Stage.searching query, r, calls⟩ =
                ⟨Stage.searching (Replace query ['@'] [' '] 1), { r with err := none },
                  calls ++ [Call.SearchUsers query]⟩ := by
              simp [GitHubMatcher.step, hn, hresp, hc]
            rw [GitHubMatcher.steps, hstep]
            exact hsteps
          · rw [if_neg hc] at h
            simp only [Option.some.injEq, Prod.mk.injEq] at h
            obtain ⟨rfl, rfl⟩ := h
            refine ⟨1, ?_⟩
            simp [GitHubMatcher.steps, GitHubMatcher.step, hn, hresp, hc, Exit.stage]
        | cons u rest =>
          simp only [Option.some.injEq, Prod.mk.injEq] at h
          obtain ⟨rfl, rfl⟩ := h
          refine ⟨1, ?_⟩
          simp [GitHubMatcher.steps, GitHubMatcher.step, hn, hresp, Exit.stage]

theorem profileLoop_steps (m : GitHubMatcher) (email : GoString) (fuel : Nat)
    (r : Results) (calls : List Call) (o : Outcome)
    (h : m.profileLoop fuel r calls = some o) :
    ∃ n, m.steps email n ⟨Stage.fetching, r, calls⟩ = ⟨Stage.stopped, o.res, o.calls⟩ := by
  induction fuel generalizing r calls with
  | zero => simp [GitHubMatcher.profileLoop] at h
  | succ k ih =>
    rw [GitHubMatcher.profileLoop] at h
    cases hresp : m.client.UsersGet calls.length r.user with
    | error e =>
      simp only [hresp] at h
      by_cases hrl : e.isRateLimitError = true
      · rw [if_pos hrl] at h
        obtain ⟨n, hsteps⟩ := ih _ _ h
        refine ⟨n + 1, ?_⟩
        have hstep : m.step email ⟨Stage.fetching, r, calls⟩ =
            ⟨Stage.fetching, { r with err := some e }, calls ++ [Call.UsersGet r.user]⟩ := by
          simp [GitHubMatcher.step, hresp, hrl]
        rw [GitHubMatcher.steps, hstep]
        exact hsteps
      · rw [if_neg hrl] at h
        simp only [Option.some.injEq] at h
        subst h
        refine ⟨1, ?_⟩
        simp [GitHubMatcher.steps, GitHubMatcher.step, hresp, hrl]
    | ok u =>
      simp only [hresp, Option.some.injEq] at h
      subst h
      refine ⟨1, ?_⟩
      simp [GitHubMatcher.steps, GitHubMatcher.step, hresp]

/-- What the two loops return is what the goroutine holds when, iteration by
iteration, it gets past a `return`. -/
theorem task_steps (m : GitHubMatcher) (fuel : Nat) (email : GoString) (o : Outcome)
    (h : m.task fuel email = some o) :
    ∃ n, m.steps email n (GitHubMatcher.start email) = ⟨Stage.stopped, o.res, o.calls⟩ := by
  rw [GitHubMatcher.task] at h
  cases hs : m.searchLoop email fuel (email ++ " in:email".toList) ⟨[], [], none⟩ [] with
  | none =>
    rw [hs] at h
    exact absurd h (by simp)
  | some x =>
    rw [hs] at h
    obtain ⟨ex, o1⟩ := x
    obtain ⟨n1, h1⟩ := searchLoop_steps m email fuel _ _ _ ex o1 hs
    cases ex with
    | ret =>
      simp only [Option.some.injEq] at h
      subst h
      exact ⟨n1, h1⟩
    | brk =>
      simp only at h
      obtain ⟨n2, h2⟩ := profileLoop_steps m email fuel _ _ o h
      refine ⟨n1 + n2, ?_⟩
      rw [steps_add, GitHubMatcher.start, h1]
      exact h2

/-! ## A search hit after retries, a profile fetched after retries -/

theorem searchLoop_of_hit (m : GitHubMatcher) (email : GoString) (n : Nat)
    (hit : User) (rest : List User) (hn : isNoReplyEmail email = false)
    (hpre : ∀ i, i < n → m.searchRetried email i = true)
    (hs : m.client.SearchUsers n (m.queryAt email n) = .ok (hit :: rest))
    (d fuel i : Nat) (r : Results) (calls : List Call)
    (hfuel : d < fuel) (hi : i + d = n) (hlen : calls.length = i) :
    m.searchLoop email fuel (m.queryAt email i) r calls =
      some (Exit.brk, ⟨{ r with user := hit.Login, err := none },
        calls ++ (List.range' i (d + 1)).map fun j => Call.SearchUsers (m.queryAt email j)⟩) := by
  induction d generalizing fuel i r calls with
  | zero =>
    obtain ⟨f, rfl⟩ : ∃ f, fuel = f + 1 := ⟨fuel - 1, by omega⟩
    have hin : i = n := by omega
    subst hin
    rw [GitHubMatcher.searchLoop]
    simp only [hn, Bool.false_eq_true, if_false, hlen, hs]
    simp [List.range']
  | succ k ih =>
    obtain ⟨f, rfl⟩ : ∃ f, fuel = f + 1 := ⟨fuel - 1, by omega⟩
    have hret := hpre i (by omega)
    have hnext := fun r' calls' (h' : calls'.length = i + 1) =>
      ih f (i + 1) r' calls' (by omega) (by omega) h'
    rw [GitHubMatcher.searchLoop]
    simp only [hn, Bool.false_eq_true, if_false, hlen]
    rw [GitHubMatcher.searchRetried] at hret
    cases hresp : m.client.SearchUsers i (m.queryAt email i) with
    | error e =>
      rw [hresp] at hret
      simp only at hret
      have hq : m.queryAt email (i + 1) = m.queryAt email i := by
        rw [GitHubMatcher.queryAt, hresp]
      simp only [hret, if_true]
      rw [hq] at hnext
      rw [hnext { r with err := some e } _ (by simp [hlen])]
      simp [List.range'_succ]
    | ok users =>
      rw [hresp] at hret
      cases users with
      | nil =>
        simp only at hret
        have hq : m.queryAt email (i + 1) = Replace (m.queryAt email i) ['@'] [' '] 1 := by
          rw [GitHubMatcher.queryAt, hresp]
        simp only [hret, if_true]
        rw [hq] at hnext
        rw [hnext { r with err := none } _ (by simp [hlen])]
        simp [List.range'_succ]
      | cons u us => simp at hret

theorem profileLoop_of_fetch (m : GitHubMatcher) (n k : Nat) (login : GoString)
    (profile : User)
    (hrl : ∀ j, j < k → m.fetchRetried (n + 1 + j) login = true)
    (hg : m.client.UsersGet (n + 1 + k) login = .ok profile)
    (d fuel j : Nat) (r : Results) (calls : List Call)
    (hfuel : d < fuel) (hj : j + d = k) (hlen : calls.length = n + 1 + j)
    (hu : r.user = login) :
    m.profileLoop fuel r calls =
      some ⟨⟨profile.Login, profile.Name, none⟩,
        calls ++ List.replicate (d + 1) (Call.UsersGet login)⟩ := by
  induction d generalizing fuel j r calls with
  | zero =>
    obtain ⟨f, rfl⟩ : ∃ f, fuel = f + 1 := ⟨fuel - 1, by omega⟩
    have hjk : j = k := by omega
    subst hjk
    rw [GitHubMatcher.profileLoop]
    simp [hlen, hu, hg]
  | succ c ih =>
    obtain ⟨f, rfl⟩ : ∃ f, fuel = f + 1 := ⟨fuel - 1, by omega⟩
    have hret := hrl j (by omega)
    rw [GitHubMatcher.fetchRetried] at hret
    rw [GitHubMatcher.profileLoop]
    cases he : m.client.UsersGet (n + 1 + j) login with
    | ok u => simp [he] at hret
    | error e =>
    rw [he] at hret
    simp only at hret
    simp only [hlen, hu, he, hret, if_true]
    rw [ih f (j + 1) ⟨login, r.name, some e⟩ _ (by omega) (by omega)
      (by simp [hlen]; omega) rfl]
    simp [List.replicate_succ]

/-! ## The cancelled call -/

theorem steps_noreply (m : GitHubMatcher) (email : GoString)
    (hn : isNoReplyEmail email = true) (n : Nat) (query : GoString) (r : Results)
    (calls : List Call) :
    m.steps email (n + 1) ⟨Stage.searching query, r, calls⟩ =
      ⟨Stage.searching query, { r with user := userFromEmail email }, calls⟩ := by
  induction n generalizing r with
  | zero => simp [GitHubMatcher.steps, GitHubMatcher.step, hn]
  | succ k ih =>
    have hstep : m.step email ⟨Stage.searching query, r, calls⟩ =
        ⟨Stage.searching query, { r with user := userFromEmail email }, calls⟩ := by
      simp [GitHubMatcher.step, hn]
    rw [GitHubMatcher.steps, hstep, ih]

/-- For a placeholder email the goroutine never stops writing `user`, so a
cancelled call returns the username of the email with `context.Canceled` as
soon as one of these writes lands after the store of line 100. -/
theorem MatchByEmail_ctxDone_noreply (m : GitHubMatcher) (email : GoString)
    (hn : isNoReplyEmail email = true) (before late fuel : Nat) :
    m.MatchByEmail (SelectCase.ctxDone before (late + 1)) fuel email =
      some ⟨userFromEmail email, [], some GoError.Canceled⟩ := by
  cases before with
  | zero =>
    show some (m.steps email (late + 1)
      ⟨Stage.searching (email ++ " in:email".toList), ⟨[], [], some GoError.Canceled⟩, []⟩).res = _
    rw [steps_noreply m email hn]
  | succ b =>
    simp only [GitHubMatcher.MatchByEmail, GitHubMatcher.start]
    rw [steps_noreply m email hn, steps_noreply m email hn]

/-- A cancelled call returns the empty strings and `context.Canceled` when no
write of the goroutine lands between the store of line 100 and the moment the
results are read back. -/
theorem MatchByEmail_ctxDone_no_late_write (m : GitHubMatcher) (email : GoString)
    (before fuel : Nat) :
    m.MatchByEmail (SelectCase.ctxDone before 0) fuel email =
      some ⟨[], [], some GoError.Canceled⟩ := by
  simp [GitHubMatcher.MatchByEmail, GitHubMatcher.steps]

/-- The same for `GitLabMatcher.MatchByEmail`. -/
theorem GitLabMatcher_ctxDone_no_late_write (m : GitLabMatcher) (email : GoString)
    (before : Nat) :
    m.MatchByEmail (SelectCase.ctxDone before 0) email = ⟨[], some GoError.Canceled⟩ := by
  simp [GitLabMatcher.MatchByEmail]

/-! ## The properties of the specification -/

/-- C2, as amended: for a non-placeholder email that holds `k ≥ 1` characters
`@`, against a client that answers every search with zero users, the goroutine
issues exactly `k + 1` searches, the query `<email> in:email` first and then,
`k` times, the previous query with its first `@` replaced by a space, and
stops with `ErrNoMatches` and empty results. -/
theorem MatchByEmail_no_users_retries (m : GitHubMatcher) (email : GoString) (extra : Nat)
    (hn : isNoReplyEmail email = false) (hat : '@' ∈ email)
    (hs : ∀ i query, m.client.SearchUsers i query = .ok []) :
    m.task (email.count '@' + 1 + extra) email =
      some ⟨⟨[], [], some GoError.ErrNoMatches⟩,
        (List.iterate (fun q => Replace q ['@'] [' '] 1) (email ++ " in:email".toList)
          (email.count '@' + 1)).map Call.SearchUsers⟩ ∧
    m.MatchByEmail .finished (email.count '@' + 1 + extra) email =
      some ⟨[], [], some GoError.ErrNoMatches⟩ ∧
    1 ≤ email.count '@' := by
  have hq : (email ++ " in:email".toList).count '@' = email.count '@' := by
    rw [List.count_append]
    have : (" in:email".toList).count '@' = 0 := by decide
    omega
  have h1 := searchLoop_add_of_some m email _ extra _ _ _ _
    (searchLoop_no_users m email hn hs _ (email ++ " in:email".toList) ⟨[], [], none⟩ [] hq)
  have ht : m.task (email.count '@' + 1 + extra) email =
      some ⟨⟨[], [], some GoError.ErrNoMatches⟩,
        (List.iterate (fun q => Replace q ['@'] [' '] 1) (email ++ " in:email".toList)
          (email.count '@' + 1)).map Call.SearchUsers⟩ := by
    rw [GitHubMatcher.task, h1]
    simp
  refine ⟨ht, ?_, List.count_pos_iff.mpr hat⟩
  rw [GitHubMatcher.MatchByEmail, ht]
  rfl

/-- Witness of C2 as amended: an email with one `@`, and the two searches. -/
theorem MatchByEmail_no_users_retries_witness :
    isNoReplyEmail "a@b.c".toList = false ∧ '@' ∈ "a@b.c".toList ∧
    (⟨emptyClient⟩ : GitHubMatcher).task 2 "a@b.c".toList =
      some ⟨⟨[], [], some GoError.ErrNoMatches⟩,
        [Call.SearchUsers "a@b.c in:email".toList, Call.SearchUsers "a b.c in:email".toList]⟩ :=
  ⟨by decide, by decide,
    (MatchByEmail_no_users_retries ⟨emptyClient⟩ "a@b.c".toList 0 (by decide) (by decide)
      (fun _ _ => rfl)).1⟩

/-- C2, as stated, fails: the email `a@b@c` is no placeholder and holds an
`@`, the client finds no user, and the goroutine issues three searches. -/
theorem MatchByEmail_no_users_three_searches :
    isNoReplyEmail "a@b@c".toList = false ∧ '@' ∈ "a@b@c".toList ∧
    (⟨emptyClient⟩ : GitHubMatcher).task 3 "a@b@c".toList =
      some ⟨⟨[], [], some GoError.ErrNoMatches⟩,
        [Call.SearchUsers "a@b@c in:email".toList, Call.SearchUsers "a b@c in:email".toList,
          Call.SearchUsers "a b c in:email".toList]⟩ := by
  decide

/-- C1, at the failing input: for the placeholder email
`12345+foo@users.noreply.github.com` the first loop of the goroutine never
reaches its `break`, so with a context that is never cancelled `MatchByEmail`
does not return, whatever the client answers and however much fuel it gets. -/
theorem MatchByEmail_noreply_never_returns (m : GitHubMatcher) (fuel : Nat) :
    m.MatchByEmail .finished fuel "12345+foo@users.noreply.github.com".toList = none := by
  rw [GitHubMatcher.MatchByEmail, task_noreply m _ (by decide) fuel]
  rfl

/-- C10, at the failing input: for the placeholder email
`foo@users.noreply.github.com`, which holds one `@`, the goroutine does not
terminate, whatever the client answers (so also when it never reports a rate
limit) and however much fuel it gets. -/
theorem task_noreply_never_terminates (m : GitHubMatcher) (fuel : Nat) :
    List.count '@' "foo@users.noreply.github.com".toList = 1 ∧
    m.task fuel "foo@users.noreply.github.com".toList = none :=
  ⟨by decide, task_noreply m _ (by decide) fuel⟩

/-- C3, at the failing input: the search finds the login `bob`, the profile
fetch fails, and `MatchByEmail` returns the error of the fetch together with
the username `bob`. -/
theorem MatchByEmail_error_with_username :
    (⟨brokenProfileClient⟩ : GitHubMatcher).MatchByEmail .finished 1 "bob@example.com".toList =
      some ⟨"bob".toList, [], some (GoError.Other 500)⟩ := by
  decide

/-- C4: whenever the goroutine of `GitHubMatcher.MatchByEmail` completes, the
error it returns is no `*github.RateLimitError`; every request (search or
profile fetch) that was answered with a rate limit error is followed by the
same request; and the error returned is nil, or `ErrNoMatches`, or the error
with which the client answered the last request, which is no rate limit
error. -/
theorem task_never_returns_rate_limit_error (m : GitHubMatcher) (fuel : Nat)
    (email : GoString) (o : Outcome) (h : m.task fuel email = some o) :
    (∀ reset, o.res.err ≠ some (GoError.RateLimitError reset)) ∧
    (∀ i call e, o.calls[i]? = some call → m.client.errorAt i call = some e →
      e.isRateLimitError = true → o.calls[i + 1]? = some call) ∧
    (o.res.err = none ∨ o.res.err = some GoError.ErrNoMatches ∨
      ∃ call e, o.calls.getLast? = some call ∧
        m.client.errorAt (o.calls.length - 1) call = some e ∧
        e.isRateLimitError = false ∧ o.res.err = some e) := by
  obtain ⟨hr, hres⟩ := task_spec m fuel email o h
  have h3 : o.res.err = none ∨ o.res.err = some GoError.ErrNoMatches ∨
      ∃ call e, o.calls.getLast? = some call ∧
        m.client.errorAt (o.calls.length - 1) call = some e ∧
        e.isRateLimitError = false ∧ o.res.err = some e := by
    rcases hres with hnone | ⟨_, ⟨hnm, _⟩ | ⟨c, e, h1, h2, h3, h4, _⟩⟩
    · exact Or.inl hnone
    · exact Or.inr (Or.inl hnm)
    · exact Or.inr (Or.inr ⟨c, e, h1, h2, h3, h4⟩)
  refine ⟨?_, ?_, h3⟩
  · intro reset hrl
    rcases h3 with hnone | hnm | ⟨c, e, _, _, he, herr⟩
    · rw [hnone] at hrl
      cases hrl
    · rw [hnm] at hrl
      cases hrl
    · rw [herr] at hrl
      cases hrl
      simp [GoError.isRateLimitError] at he
  · intro i call e hi he hrl
    have := hr i call e hi he hrl
    simpa using this

/-- Witness of C4: the first search and the first profile fetch are answered
with a rate limit error; each is repeated, and the goroutine returns the
profile with a nil error. -/
theorem task_never_returns_rate_limit_error_witness :
    (⟨busyClient⟩ : GitHubMatcher).task 2 "octo@cat.io".toList =
      some ⟨⟨"Octocat".toList, "The Octocat".toList, none⟩,
        [Call.SearchUsers "octo@cat.io in:email".toList,
          Call.SearchUsers "octo@cat.io in:email".toList,
          Call.UsersGet "octocat".toList, Call.UsersGet "octocat".toList]⟩ ∧
    ∀ reset, (none : Option GoError) ≠ some (GoError.RateLimitError reset) :=
  ⟨by decide,
    (task_never_returns_rate_limit_error ⟨busyClient⟩ 2 "octo@cat.io".toList
      ⟨⟨"Octocat".toList, "The Octocat".toList, none⟩,
        [Call.SearchUsers "octo@cat.io in:email".toList,
          Call.SearchUsers "octo@cat.io in:email".toList,
          Call.UsersGet "octocat".toList, Call.UsersGet "octocat".toList]⟩ (by decide)).1⟩

/-- C5, as amended: `userFromEmail` returns the part of the email before its
first `@` when that part holds no `+`, and otherwise what stands in that part
between its first `+` and its next `+` (the end of the part when there is no
other `+`); the emails `foo@users.noreply.github.com` and
`12345+foo@users.noreply.github.com` both give `foo`. -/
theorem userFromEmail_eq (email : GoString) :
    userFromEmail email =
      (if '+' ∈ email.takeWhile (· != '@') then
        (((email.takeWhile (· != '@')).dropWhile (· != '+')).drop 1).takeWhile (· != '+')
      else email.takeWhile (· != '@')) ∧
    userFromEmail "foo@users.noreply.github.com".toList = "foo".toList ∧
    userFromEmail "12345+foo@users.noreply.github.com".toList = "foo".toList :=
  ⟨userFromEmail_segment email, by decide, by decide⟩

/-- C5, as stated, fails: on `1+a+b@users.noreply.github.com` the code returns
`a`, and everything after the first `+` of the part before the `@` is `a+b`. -/
theorem userFromEmail_two_plus :
    userFromEmail "1+a+b@users.noreply.github.com".toList = "a".toList ∧
    userFromEmailSpec "1+a+b@users.noreply.github.com".toList = "a+b".toList ∧
    userFromEmail "1+a+b@users.noreply.github.com".toList ≠
      userFromEmailSpec "1+a+b@users.noreply.github.com".toList := by
  decide

/-- C6: for an email that is no placeholder, when a search of the call finds
at least one user (search number `n`, the `n` searches before it having sent
the loop round again with a rate limit error or with zero users for a query
that holds an `@`) and the profile fetch for the login of the first user
found succeeds (after `k` fetches answered with a rate limit error),
`MatchByEmail` returns, with a nil error, the login and the name of the
profile fetched; the requests issued are the `n + 1` searches followed by
`k + 1` fetches, each keyed by the login of the first user found. -/
theorem MatchByEmail_returns_fetched_profile (m : GitHubMatcher) (email : GoString)
    (n k extra : Nat) (hit : User) (rest : List User) (profile : User)
    (hn : isNoReplyEmail email = false)
    (hpre : ∀ i, i < n → m.searchRetried email i = true)
    (hs : m.client.SearchUsers n (m.queryAt email n) = .ok (hit :: rest))
    (hrl : ∀ j, j < k → m.fetchRetried (n + 1 + j) hit.Login = true)
    (hg : m.client.UsersGet (n + 1 + k) hit.Login = .ok profile) :
    m.MatchByEmail .finished (max n k + 1 + extra) email =
      some ⟨profile.Login, profile.Name, none⟩ ∧
    m.task (max n k + 1 + extra) email =
      some ⟨⟨profile.Login, profile.Name, none⟩,
        ((List.range (n + 1)).map fun i => Call.SearchUsers (m.queryAt email i)) ++
          List.replicate (k + 1) (Call.UsersGet hit.Login)⟩ := by
  have h1 := searchLoop_of_hit m email n hit rest hn hpre hs n (max n k + 1 + extra) 0
    ⟨[], [], none⟩ [] (by omega) (by omega) rfl
  have h2 := profileLoop_of_fetch m n k hit.Login profile hrl hg k (max n k + 1 + extra) 0
    ⟨hit.Login, [], none⟩
    ((List.range (n + 1)).map fun i => Call.SearchUsers (m.queryAt email i))
    (by omega) (by omega) (by simp) rfl
  have ht : m.task (max n k + 1 + extra) email =
      some ⟨⟨profile.Login, profile.Name, none⟩,
        ((List.range (n + 1)).map fun i => Call.SearchUsers (m.queryAt email i)) ++
          List.replicate (k + 1) (Call.UsersGet hit.Login)⟩ := by
    rw [GitHubMatcher.task]
    rw [show email ++ " in:email".toList = m.queryAt email 0 from rfl, h1]
    simp only [List.nil_append, ← List.range_eq_range']
    exact h2
  refine ⟨?_, ht⟩
  rw [GitHubMatcher.MatchByEmail, ht]
  rfl

/-- Witness of C6: the hit comes on the query with a space for the `@`, after
a search that found nobody and one answered with a rate limit error; the
profile comes with the second fetch, after a rate limit error. -/
theorem MatchByEmail_returns_fetched_profile_witness :
    (⟨fallbackClient⟩ : GitHubMatcher).MatchByEmail .finished 3 "octo@cat.io".toList =
      some ⟨"Octocat".toList, "The Octocat".toList, none⟩ ∧
    (⟨fallbackClient⟩ : GitHubMatcher).task 3 "octo@cat.io".toList =
      some ⟨⟨"Octocat".toList, "The Octocat".toList, none⟩,
        [Call.SearchUsers "octo@cat.io in:email".toList,
          Call.SearchUsers "octo cat.io in:email".toList,
          Call.SearchUsers "octo cat.io in:email".toList,
          Call.UsersGet "octocat".toList, Call.UsersGet "octocat".toList]⟩ :=
  MatchByEmail_returns_fetched_profile ⟨fallbackClient⟩ "octo@cat.io".toList 2 1 0
    ⟨"octocat".toList, []⟩ [] ⟨"Octocat".toList, "The Octocat".toList⟩
    (by decide) (by decide) rfl (by decide) rfl

/-- C7: `GitLabMatcher.MatchByEmail`, when the goroutine completes, has issued
exactly one `ListUsers` request, whose `Search` option is the email, and
returns the error of the request with an empty username when the request
fails, `ErrNoMatches` with an empty username when it finds zero users, and
otherwise the `Username` of the first user found with a nil error. -/
theorem GitLabMatcher_MatchByEmail_eq (m : GitLabMatcher) (email : GoString) :
    (m.task email).calls = [⟨some email⟩] ∧
    m.MatchByEmail .finished email =
      (match m.client.ListUsers ⟨some email⟩ with
      | .error e => ⟨[], some e⟩
      | .ok [] => ⟨[], some GoError.ErrNoMatches⟩
      | .ok (u :: _) => ⟨u.Username, none⟩) := by
  unfold GitLabMatcher.MatchByEmail GitLabMatcher.task
  cases h : m.client.ListUsers ⟨some email⟩ with
  | error e => simp [h]
  | ok users =>
    cases users with
    | nil => simp [h]
    | cons u rest => simp [h]

/-- C8: for every `GitLabMatcher` and every context, email, repository and
commit, `SupportsMatchingByCommit` returns false, `MatchByCommit` returns an
empty username with the error `errors.New("not implemented")`, whose text is
`not implemented`, and `OnIdle` returns nil. -/
theorem GitLabMatcher_commit_not_implemented (m : GitLabMatcher) (ctx : Context)
    (email repo commit : GoString) :
    m.SupportsMatchingByCommit = false ∧
    (m.MatchByCommit ctx email repo commit).1 = [] ∧
    (∃ e, (m.MatchByCommit ctx email repo commit).2 = some e ∧
      e.Error = some "not implemented".toList) ∧
    m.OnIdle = none :=
  ⟨rfl, rfl, ⟨_, rfl, rfl⟩, rfl⟩

/-- C9, at the failing input: for the placeholder email
`foo@users.noreply.github.com` and a context cancelled before the goroutine
sends its completion signal (it never does), the goroutine goes on writing
`user`, and as soon as one of its writes lands after the store of
`return "", "", context.Canceled` the call returns the username `foo` with
`context.Canceled`, whatever the client; in the same way the cancelled call of
`GitLabMatcher` returns the username `alice` with a nil error when the one
pass of its goroutine lands after the store of line 58. -/
theorem MatchByEmail_canceled_with_username (m : GitHubMatcher) (before late fuel : Nat) :
    m.MatchByEmail (SelectCase.ctxDone before (late + 1)) fuel
        "foo@users.noreply.github.com".toList =
      some ⟨"foo".toList, [], some GoError.Canceled⟩ ∧
    (⟨aliceClient⟩ : GitLabMatcher).MatchByEmail (SelectCase.ctxDone 0 1)
        "alice@example.com".toList = ⟨"alice".toList, none⟩ := by
  refine ⟨?_, by decide⟩
  rw [MatchByEmail_ctxDone_noreply m _ (by decide) before late fuel]
  have : userFromEmail "foo@users.noreply.github.com".toList = "foo".toList := by decide
  rw [this]

end External
